import Mathlib

/-!
Shallow embedding of the runway-operation detector of `API_active_runway.py`
(classes `AircraftState` and `RunwayMonitor`).  Latitudes, longitudes,
altitudes, speeds and headings are modelled as rationals; timestamps as
integers counting seconds.  `math.sin(math.radians b)` and
`math.cos(math.radians b)` are modelled by an abstract pair of functions
(`TrigModel`), since none of the verified properties depend on trigonometric
identities.
-/

namespace RealTraffic

/-- One element of `AircraftState.positions`: the dict appended by
`AircraftState.update` (lat, lon, alt, gs, track, time, callsign). -/
structure Sample where
  lat : ℚ
  lon : ℚ
  alt : ℚ
  gs : ℚ
  track : ℚ
  time : ℤ
  callsign : String
deriving Repr, DecidableEq

/-- `AircraftState.__init__`: `positions = deque(maxlen=10)`, `last_update = None`. -/
structure AircraftState where
  positions : List Sample := []
  last_update : Option ℤ := none
deriving Repr, DecidableEq

/-- Appending to a `deque(maxlen=10)`: the new element goes to the right and,
past capacity, the oldest (leftmost) element is discarded. -/
def dequeAppend10 (xs : List Sample) (s : Sample) : List Sample :=
  (xs ++ [s]).drop ((xs.length + 1) - 10)

/-- `AircraftState.update`: append the position dict, set `last_update`. -/
def AircraftState.update (st : AircraftState) (lat lon alt gs track : ℚ)
    (timestamp : ℤ) (callsign : String) : AircraftState :=
  { positions := dequeAppend10 st.positions ⟨lat, lon, alt, gs, track, timestamp, callsign⟩,
    last_update := some timestamp }

/-- Mean of a list of rationals, `sum(xs)/len(xs)` (0 on the empty list,
which the code never hits). -/
def mean (xs : List ℚ) : ℚ := xs.sum / xs.length

/-- Python `list(positions)[:3]`: the first up-to-3 elements. -/
def first3 (xs : List Sample) : List Sample := xs.take 3

/-- Python `list(positions)[-3:]`: the last up-to-3 elements. -/
def last3 (xs : List Sample) : List Sample := xs.drop (xs.length - 3)

/-- `AircraftState.get_altitude_trend`. -/
def AircraftState.get_altitude_trend (st : AircraftState) : ℚ :=
  if st.positions.length < 2 then 0
  else mean ((last3 st.positions).map Sample.alt) - mean ((first3 st.positions).map Sample.alt)

/-- `AircraftState.get_speed_trend`. -/
def AircraftState.get_speed_trend (st : AircraftState) : ℚ :=
  if st.positions.length < 2 then 0
  else mean ((last3 st.positions).map Sample.gs) - mean ((first3 st.positions).map Sample.gs)

/-- One runway's record from `airport_data['runways']`. -/
structure Runway where
  lat : ℚ
  lon : ℚ
  true_brg : ℚ
  mag_brg : ℚ
deriving Repr, DecidableEq

/-- Abstract model of `b ↦ math.sin(math.radians b)` and
`b ↦ math.cos(math.radians b)`; the detector's control flow does not depend
on any property of these functions, so all theorems quantify over them. -/
structure TrigModel where
  sinDeg : ℚ → ℚ
  cosDeg : ℚ → ℚ

/-- Python float `a % b` for `b > 0`: the remainder with the sign of the
divisor, `a - b * floor (a / b)`. -/
def pymod (a b : ℚ) : ℚ := a - b * Rat.floor (a / b)

/-- The loop body of `AircraftState.analyze_runway_ops` over `runway_data.items()`:
for each runway compute cross-track, along-track and heading difference from
the newest sample, skip the runway when `cross_track > 0.05`, and return at
the first runway whose arrival or departure rule fires. -/
def analyzeLoop (T : TrigModel) (st : AircraftState) (latest : Sample) (field_alt : ℚ) :
    List (String × Runway) → Option (Bool × String)
  | [] => none
  | (rwy_id, rwy_data) :: rest =>
    let lat_diff := latest.lat - rwy_data.lat
    let lon_diff := latest.lon - rwy_data.lon
    let rx := T.sinDeg rwy_data.true_brg
    let ry := T.cosDeg rwy_data.true_brg
    let cross_track := |lon_diff * ry - lat_diff * rx| * 60
    let along_track := -(lon_diff * rx + lat_diff * ry) * 60
    let track_diff := |pymod (latest.track - rwy_data.true_brg + 180) 360 - 180|
    if cross_track > 5/100 then
      analyzeLoop T st latest field_alt rest
    else
      let alt_trend := st.get_altitude_trend
      let speed_trend := st.get_speed_trend
      if along_track > 0 ∧ alt_trend < 0 ∧ speed_trend < 10 ∧ track_diff < 5 ∧
          latest.gs > 50 ∧ latest.alt - field_alt < 3000 then
        some (true, rwy_id)
      else if along_track < 0 ∧ speed_trend > 10 ∧ latest.gs > 40 ∧
          latest.alt - field_alt < 1000 ∧ track_diff < 20 then
        some (false, rwy_id)
      else
        analyzeLoop T st latest field_alt rest

/-- `AircraftState.analyze_runway_ops`: `some (true, rwy)` models the return
value `("arrival", rwy_id)`, `some (false, rwy)` models `("departure", rwy_id)`
and `none` models `(None, None)`. -/
def AircraftState.analyze_runway_ops (T : TrigModel) (st : AircraftState)
    (runway_data : List (String × Runway)) (field_alt : ℚ) : Option (Bool × String) :=
  if st.positions.length < 3 then none
  else
    match st.positions.getLast? with
    | none => none
    | some latest => analyzeLoop T st latest field_alt runway_data

/-! Association lists modelling Python dicts (insertion-ordered, overwrite
keeps the original position) and Python sets (only membership and size are
observed; modelled as duplicate-free insertion-ordered lists). -/

/-- Dict lookup, `m[k]` / `m.get(k)`. -/
def alookup {α : Type} : List (String × α) → String → Option α
  | [], _ => none
  | p :: ps, k => if p.1 = k then some p.2 else alookup ps k

/-- Dict assignment `m[k] = v`: overwrite in place when the key exists,
append otherwise (Python dicts keep insertion order). -/
def dictInsert {α : Type} : List (String × α) → String → α → List (String × α)
  | [], k, v => [(k, v)]
  | p :: ps, k, v => if p.1 = k then (k, v) :: ps else p :: dictInsert ps k v

/-- Python `set.add`. -/
def setAdd (s : List String) (x : String) : List String :=
  if x ∈ s then s else s ++ [x]

/-- Timestamp map of one runway's `approach_history` / `departure_history`
entry: callsign to detection time, seconds. -/
abbrev Hist := List (String × ℤ)

/-- Runway-keyed dict of histories. -/
abbrev RwyHist := List (String × Hist)

/-- Runway-keyed dict of callsign sets (`current_approaches` / `current_departures`). -/
abbrev RwySets := List (String × List String)

/-- A record of the traffic batch (the fields of `aircraft` the engine reads:
indices 1-5 may be `null`, index 13 is the callsign). -/
structure RawAircraft where
  lat : Option ℚ
  lon : Option ℚ
  track : Option ℚ
  alt : Option ℚ
  gs : Option ℚ
  callsign : String
deriving Repr, DecidableEq

/-- The cross-cycle state of `RunwayMonitor` that `update_runway_usage`
reads and writes. -/
structure RunwayMonitor where
  approach_history : RwyHist := []
  current_approaches : RwySets := []
  departure_history : RwyHist := []
  current_departures : RwySets := []
  aircraft_states : List (String × AircraftState) := []
deriving Repr, DecidableEq

/-- The history-cleaning dict comprehension: keep `(callsign, time)` with
`time > cutoff_time`. -/
def pruneHist (cutoff : ℤ) (h : Hist) : Hist :=
  h.filter fun p => cutoff < p.2

/-- One iteration of the `for aircraft in traffic_data.values()` loop: skip
the record when any of fields 1-5 is `None`, otherwise get-or-create the
state for its callsign and `update` it. -/
def ingestRecord (states : List (String × AircraftState)) (now : ℤ)
    (a : RawAircraft) : List (String × AircraftState) :=
  match a.lat, a.lon, a.track, a.alt, a.gs with
  | some lat, some lon, some track, some alt, some gs =>
      let st := (alookup states a.callsign).getD {}
      dictInsert states a.callsign (st.update lat lon alt gs track now a.callsign)
  | _, _, _, _, _ => states

/-- The track-expiry test: keep a state when
`(current_time - state.last_update).total_seconds() < 120`. -/
def keepTrack (now : ℤ) (st : AircraftState) : Bool :=
  match st.last_update with
  | some t => now - t < 120
  | none => false

/-- Accumulator of the `for callsign, state in self.aircraft_states.items()`
loop: the fresh `new_approaches` / `new_departures` sets and the history maps
being extended. -/
structure CycleAcc where
  newA : RwySets
  newD : RwySets
  histA : RwyHist
  histD : RwyHist
deriving Repr, DecidableEq

/-- Ledger effect of one classification result `(callsign, op)`: add the
callsign to the fresh set for its runway, and stamp the history when the
callsign was not in the previous cycle's current set for that runway. -/
def ledgerStep (currentA currentD : RwySets) (now : ℤ) (acc : CycleAcc) :
    String × Option (Bool × String) → CycleAcc
  | (callsign, some (true, rwy)) =>
      { acc with
        newA := dictInsert acc.newA rwy (setAdd ((alookup acc.newA rwy).getD []) callsign),
        histA :=
          if callsign ∈ (alookup currentA rwy).getD [] then acc.histA
          else dictInsert acc.histA rwy
            (dictInsert ((alookup acc.histA rwy).getD []) callsign now) }
  | (callsign, some (false, rwy)) =>
      { acc with
        newD := dictInsert acc.newD rwy (setAdd ((alookup acc.newD rwy).getD []) callsign),
        histD :=
          if callsign ∈ (alookup currentD rwy).getD [] then acc.histD
          else dictInsert acc.histD rwy
            (dictInsert ((alookup acc.histD rwy).getD []) callsign now) }
  | (_, none) => acc

/-- One iteration of the analysis loop: classify the state, then apply the
ledger effect. -/
def classifyStep (T : TrigModel) (runway_data : List (String × Runway)) (field_alt : ℚ)
    (currentA currentD : RwySets) (now : ℤ) (acc : CycleAcc)
    (p : String × AircraftState) : CycleAcc :=
  ledgerStep currentA currentD now acc
    (p.1, p.2.analyze_runway_ops T runway_data field_alt)

/-- The aircraft-state map after the ingest loop and the expiry sweep of one
cycle. -/
def cycleStates (states : List (String × AircraftState))
    (traffic_data : List RawAircraft) (now : ℤ) : List (String × AircraftState) :=
  (traffic_data.foldl (fun s a => ingestRecord s now a) states).filter
    fun p => keepTrack now p.2

/-- `RunwayMonitor.update_runway_usage`: prune both histories at
`now - 30 minutes`, ingest the batch, expire stale tracks, classify every
remaining track and update the ledger, then replace the current sets.
`traffic_data` is the batch in `traffic_data.values()` iteration order;
`now` models `datetime.now()` in seconds. -/
def RunwayMonitor.update_runway_usage (T : TrigModel) (m : RunwayMonitor)
    (traffic_data : List RawAircraft) (runway_data : List (String × Runway))
    (field_alt : ℚ) (now : ℤ) : RunwayMonitor :=
  let cutoff := now - 30 * 60
  let histA := m.approach_history.map fun p => (p.1, pruneHist cutoff p.2)
  let histD := m.departure_history.map fun p => (p.1, pruneHist cutoff p.2)
  let states := cycleStates m.aircraft_states traffic_data now
  let acc := states.foldl
    (classifyStep T runway_data field_alt m.current_approaches m.current_departures now)
    { newA := [], newD := [], histA := histA, histD := histD }
  { approach_history := acc.histA,
    current_approaches := acc.newA,
    departure_history := acc.histD,
    current_departures := acc.newD,
    aircraft_states := states }

/-- The per-runway output snapshot read by `display_runway_info`: 30-minute
arrival and departure counts and the current arrival / departure callsign
sets (missing keys of the defaultdicts read as empty). -/
def RunwayMonitor.snapshot (m : RunwayMonitor) (runway_data : List (String × Runway)) :
    List (String × (ℕ × ℕ × List String × List String)) :=
  runway_data.map fun p =>
    (p.1, (((alookup m.approach_history p.1).getD []).length,
           ((alookup m.departure_history p.1).getD []).length,
           (alookup m.current_approaches p.1).getD [],
           (alookup m.current_departures p.1).getD []))

/-! Spec-side definitions: restatements of spec sections 4.1 and 4.2 in the
spec's own words, to be compared with the embedded code. -/

/-- Spec 4.1: the window of the first up-to-3 samples. -/
def firstWindow (xs : List Sample) : List Sample := xs.take 3

/-- Spec 4.1: the window of the last up-to-3 samples (the final up-to-3
elements of the buffer). -/
def lastWindow (xs : List Sample) : List Sample := (xs.reverse.take 3).reverse

/-- Spec 4.2 step 3: `cross_track = |dLon*ry - dLat*rx| * 60`. -/
def specCrossTrack (T : TrigModel) (latest : Sample) (rwy : Runway) : ℚ :=
  |(latest.lon - rwy.lon) * T.cosDeg rwy.true_brg -
    (latest.lat - rwy.lat) * T.sinDeg rwy.true_brg| * 60

/-- Spec 4.2 step 4: `along_track = -(dLon*rx + dLat*ry) * 60`. -/
def specAlongTrack (T : TrigModel) (latest : Sample) (rwy : Runway) : ℚ :=
  -((latest.lon - rwy.lon) * T.sinDeg rwy.true_brg +
    (latest.lat - rwy.lat) * T.cosDeg rwy.true_brg) * 60

/-- Spec 4.2 step 5: smallest absolute angular difference between the track
heading and the runway bearing. -/
def specTrackDiff (latest : Sample) (rwy : Runway) : ℚ :=
  |pymod (latest.track - rwy.true_brg + 180) 360 - 180|

/-- Spec 4.2 step 8, the arrival rule, as a proposition. -/
abbrev specArrivalProp (T : TrigModel) (st : AircraftState) (latest : Sample)
    (field_alt : ℚ) (rwy : Runway) : Prop :=
  specAlongTrack T latest rwy > 0 ∧ st.get_altitude_trend < 0 ∧
    st.get_speed_trend < 10 ∧ specTrackDiff latest rwy < 5 ∧
    latest.gs > 50 ∧ latest.alt - field_alt < 3000

/-- Spec 4.2 step 9, the departure rule, as a proposition. -/
abbrev specDepartureProp (T : TrigModel) (st : AircraftState) (latest : Sample)
    (field_alt : ℚ) (rwy : Runway) : Prop :=
  specAlongTrack T latest rwy < 0 ∧ st.get_speed_trend > 10 ∧
    latest.gs > 40 ∧ latest.alt - field_alt < 1000 ∧
    specTrackDiff latest rwy < 20

/-- Spec 4.2 step 8, the arrival rule, as a test. -/
def specArrivalRule (T : TrigModel) (st : AircraftState) (latest : Sample)
    (field_alt : ℚ) (rwy : Runway) : Bool :=
  decide (specArrivalProp T st latest field_alt rwy)

/-- Spec 4.2 step 9, the departure rule, as a test. -/
def specDepartureRule (T : TrigModel) (st : AircraftState) (latest : Sample)
    (field_alt : ℚ) (rwy : Runway) : Bool :=
  decide (specDepartureProp T st latest field_alt rwy)

/-- Spec 4.2 steps 6-9 combined: a runway matches when it passes the
cross-track gate and either rule fires. -/
def specRunwayMatches (T : TrigModel) (st : AircraftState) (latest : Sample)
    (field_alt : ℚ) (p : String × Runway) : Bool :=
  !decide (specCrossTrack T latest p.2 > 5/100) &&
    (specArrivalRule T st latest field_alt p.2 ||
      specDepartureRule T st latest field_alt p.2)

/-- Spec 4.2, the whole classifier: `None` below 3 samples, otherwise the
first runway in the given deterministic order that matches, with the kind
decided by the arrival rule first. -/
def classifySpec (T : TrigModel) (st : AircraftState)
    (runway_data : List (String × Runway)) (field_alt : ℚ) : Option (Bool × String) :=
  if st.positions.length < 3 then none
  else
    match st.positions.getLast? with
    | none => none
    | some latest =>
      (runway_data.find? (specRunwayMatches T st latest field_alt)).map
        fun p => (specArrivalRule T st latest field_alt p.2, p.1)

/-- The track obtained by one `update` call per sample, in order, starting
from a fresh `AircraftState`. -/
def trackOf (samples : List Sample) : AircraftState :=
  samples.foldl (fun st s => st.update s.lat s.lon s.alt s.gs s.track s.time s.callsign) {}

/-! Concrete inputs used by the witness and counterexample theorems. -/

/-- Trig model with `sin = 0`, `cos = 1` everywhere (the exact values are
irrelevant to every verified property; this choice corresponds to a runway
bearing of 0 degrees). -/
def wTrig : TrigModel := ⟨fun _ => 0, fun _ => 1⟩

/-- One north-facing runway at the origin. -/
def wRunways : List (String × Runway) := [("09", ⟨0, 0, 0, 90⟩)]

/-- A sample on the extended centerline of `wRunways`, runway-aligned. -/
def wSample (alt gs : ℚ) (t : ℤ) : Sample := ⟨-1/50, 0, alt, gs, 0, t, "AFR1"⟩

/-- A descending four-sample track on final for `wRunways`. -/
def wTrack4 : AircraftState :=
  { positions := [wSample 2200 120 0, wSample 2100 120 1, wSample 2000 120 2, wSample 1900 120 3],
    last_update := some 3 }

/-- A three-sample track (same prefix). -/
def wTrack3 : AircraftState :=
  { positions := [wSample 2200 120 0, wSample 2100 120 1, wSample 2000 120 2],
    last_update := some 2 }

/-- A two-sample track. -/
def wTrack2 : AircraftState :=
  { positions := [wSample 2200 120 0, wSample 2100 120 1],
    last_update := some 1 }

/-- A monitor holding only the two-sample track. -/
def wMonitor : RunwayMonitor :=
  { aircraft_states :=
      [("AFR1", { positions := [wSample 2200 120 (-2), wSample 2100 120 (-1)],
                  last_update := some (-1) })] }

/-- A batch with one fully-populated record for `AFR1`. -/
def wBatch : List RawAircraft := [⟨some (-1/50), some 0, some 0, some 2000, some 120, "AFR1"⟩]

/-- A record whose altitude field is `null`. -/
def wNullRecord : RawAircraft := ⟨some 1, some 2, some 3, none, some 4, "BAD1"⟩

/-- A track with no samples whose `last_update` is set (used to exercise the
expiry predicate in isolation). -/
def wIdle : AircraftState := { positions := [], last_update := some 0 }

/-- Eleven samples with increasing timestamps. -/
def wSamples11 : List Sample :=
  [wSample 0 0 0, wSample 0 0 1, wSample 0 0 2, wSample 0 0 3, wSample 0 0 4,
   wSample 0 0 5, wSample 0 0 6, wSample 0 0 7, wSample 0 0 8, wSample 0 0 9,
   wSample 0 0 10]

/-! Observation helpers over the monitor state, and the driver loop. -/

/-- The timestamp stored for a callsign in a runway-keyed history. -/
def histAt (h : RwyHist) (r cs : String) : Option ℤ :=
  alookup ((alookup h r).getD []) cs

/-- Membership of a callsign in one runway's current set. -/
def inCurrent (c : RwySets) (r cs : String) : Prop :=
  cs ∈ (alookup c r).getD []

/-- Number of occurrences of a callsign in one runway's current set. -/
def currCount (c : RwySets) (r cs : String) : ℕ :=
  ((alookup c r).getD []).count cs

/-- Select the history map of one operation kind (`true` = arrival). -/
def histSel (k : Bool) (m : RunwayMonitor) : RwyHist :=
  if k then m.approach_history else m.departure_history

/-- Select the current-set map of one operation kind (`true` = arrival). -/
def currSel (k : Bool) (m : RunwayMonitor) : RwySets :=
  if k then m.current_approaches else m.current_departures

/-- The callsign keys of the aircraft-state dict are unique (always true of a
Python dict; an invariant of the embedding's association list). -/
def goodKeys (states : List (String × AircraftState)) : Prop :=
  (states.map Prod.fst).Nodup

/-- The engine classifies callsign `cs` as operation `k` on runway `r` in the
cycle that starts from monitor `m` and ingests `batch` at time `now`. -/
def detected (T : TrigModel) (rd : List (String × Runway)) (fa : ℚ)
    (m : RunwayMonitor) (batch : List RawAircraft) (now : ℤ)
    (cs r : String) (k : Bool) : Prop :=
  ∃ st, alookup (cycleStates m.aircraft_states batch now) cs = some st ∧
    st.analyze_runway_ops T rd fa = some (k, r)

/-- The driver loop of `RunwayMonitor.run`: one `update_runway_usage` call
per polling cycle, fed the cycle's batch and clock value. -/
def runCycles (T : TrigModel) (rd : List (String × Runway)) (fa : ℚ) :
    RunwayMonitor → List (List RawAircraft × ℤ) → RunwayMonitor
  | m, [] => m
  | m, (b, t) :: rest =>
      runCycles T rd fa (m.update_runway_usage T b rd fa t) rest

/-- Callsign `cs` is classified as operation `k` on runway `r` in every
cycle of the given input trace starting at monitor `m`. -/
def streakFrom (T : TrigModel) (rd : List (String × Runway)) (fa : ℚ)
    (cs r : String) (k : Bool) : RunwayMonitor → List (List RawAircraft × ℤ) → Prop
  | _, [] => True
  | m, (b, t) :: rest =>
      detected T rd fa m b t cs r k ∧
        streakFrom T rd fa cs r k (m.update_runway_usage T b rd fa t) rest

/-- All timestamps of a runway-keyed history are within the 30-minute window
at time `now`. -/
def histFresh (now : ℤ) (h : RwyHist) : Prop :=
  ∀ p ∈ h, ∀ q ∈ p.2, now - 30 * 60 < q.2

/-- The ledger accumulator one cycle produces, written as a fold of
`ledgerStep` over the cycle's classification list (equal to the engine's
fold of `classifyStep` over the live tracks). -/
def cycleFold (T : TrigModel) (rd : List (String × Runway)) (fa : ℚ)
    (m : RunwayMonitor) (batch : List RawAircraft) (now : ℤ) : CycleAcc :=
  ((cycleStates m.aircraft_states batch now).map
     fun p => (p.1, p.2.analyze_runway_ops T rd fa)).foldl
    (ledgerStep m.current_approaches m.current_departures now)
    { newA := [], newD := [],
      histA := m.approach_history.map fun p => (p.1, pruneHist (now - 30 * 60) p.2),
      histD := m.departure_history.map fun p => (p.1, pruneHist (now - 30 * 60) p.2) }

/-- A sample on the centerline of `wRunways` with the given altitude, track
heading and time. -/
def wSampleT (alt track : ℚ) (t : ℤ) : Sample :=
  ⟨-1/50, 0, alt, 120, track, t, "AFR1"⟩

/-- A fully-populated batch record with the given altitude and heading. -/
def wRec (alt track : ℚ) : RawAircraft :=
  ⟨some (-1/50), some 0, some track, some alt, some 120, "AFR1"⟩

/-- Three samples of a steady descent. -/
def wP0 : List Sample := [wSampleT 2200 0 (-3), wSampleT 2100 0 (-2), wSampleT 2000 0 (-1)]

/-- A monitor tracking `AFR1` on final with three stored samples. -/
def wC2m0 : RunwayMonitor :=
  { aircraft_states := [("AFR1", { positions := wP0, last_update := some (-1) })] }

/-- `AFR1`'s track after the first detection cycle. -/
def wSt1 : AircraftState :=
  { positions := wP0 ++ [wSampleT 1900 0 0], last_update := some 0 }

/-- `AFR1`'s track during the second detection cycle. -/
def wStR : AircraftState :=
  { positions := wP0 ++ [wSampleT 1900 0 0, wSampleT 1800 0 10], last_update := some 10 }

/-- `AFR1`'s track during the gap cycle (heading swung to 90 degrees, so
nothing classifies). -/
def wStG : AircraftState :=
  { positions := wP0 ++ [wSampleT 1900 0 0, wSampleT 1800 0 10, wSampleT 1700 90 20],
    last_update := some 20 }

/-- `AFR1`'s track during the renewed-detection cycle. -/
def wSt2 : AircraftState :=
  { positions := wP0 ++ [wSampleT 1900 0 0, wSampleT 1800 0 10, wSampleT 1700 90 20,
      wSampleT 1600 0 30],
    last_update := some 30 }

/-- The monitor after the first detection cycle. -/
def wm1 : RunwayMonitor := wC2m0.update_runway_usage wTrig [wRec 1900 0] wRunways 0 0

/-- The monitor after the two-cycle detection streak. -/
def wmS : RunwayMonitor := runCycles wTrig wRunways 0 wm1 [([wRec 1800 0], 10)]

/-- The monitor after the gap cycle. -/
def wmG : RunwayMonitor := wmS.update_runway_usage wTrig [wRec 1700 90] wRunways 0 20

/-- The monitor after the renewed detection. -/
def wm2 : RunwayMonitor := wmG.update_runway_usage wTrig [wRec 1600 0] wRunways 0 30

/-! ## Theorems -/

/-- C9: a track with fewer than 3 samples is classified as no operation, for
any trig model, runway set and field elevation; the branch is a plain return
(the embedding is a total function), not an error. -/
theorem C9_insufficient_history (T : TrigModel) (st : AircraftState)
    (runway_data : List (String × Runway)) (field_alt : ℚ)
    (h : st.positions.length < 3) :
    st.analyze_runway_ops T runway_data field_alt = none := by
  simp [AircraftState.analyze_runway_ops, h]

/-- Witness for C9 at a concrete two-sample track. -/
theorem C9_witness :
    wTrack2.positions.length < 3 ∧
      wTrack2.analyze_runway_ops wTrig wRunways 0 = none :=
  ⟨by decide, C9_insufficient_history wTrig wTrack2 wRunways 0 (by decide)⟩

/-- C3 counterexample: the history-pruning comprehension keeps only entries
with `time > now - 30 min`, so an entry aged exactly 30 minutes
(`now = 1800 s`, `t = 0`) is removed, where the claim says it is retained. -/
theorem C3_counterexample :
    pruneHist ((1800 : ℤ) - 30 * 60) [("AFR1", 0)] = [] := by decide

/-- C3 amended: pruning keeps exactly the entries with `now - t < 30 min`;
equivalently it removes exactly those with `now - t ≥ 30 min`, so the entry
aged exactly 30 minutes is removed (30 min + 1 s is absent, 30 min - 1 s is
present, as before). -/
theorem C3_prune_exact (now : ℤ) (h : Hist) (cs : String) (t : ℤ) :
    (cs, t) ∈ pruneHist (now - 30 * 60) h ↔ (cs, t) ∈ h ∧ now - t < 30 * 60 := by
  simp only [pruneHist, List.mem_filter, decide_eq_true_eq]
  constructor
  · rintro ⟨hm, hlt⟩; exact ⟨hm, by omega⟩
  · rintro ⟨hm, hlt⟩; exact ⟨hm, by omega⟩

/-- C4 counterexample: the expiry sweep keeps a track only when
`now - last_update < 120`, so a track idle for exactly 120 seconds is
removed, where the claim says it is retained. -/
theorem C4_counterexample :
    List.filter (fun p => keepTrack 120 p.2) [("AFR1", wIdle)] = [] := by decide

/-- C4 amended: the expiry sweep keeps exactly the tracks with
`now - last_update < 120`: idle > 120 s removed, exactly 119 s retained, and
the boundary track idle exactly 120 s is removed. -/
theorem C4_expiry_exact (now : ℤ) (states : List (String × AircraftState))
    (cs : String) (st : AircraftState) (t : ℤ) (h : st.last_update = some t) :
    (cs, st) ∈ states.filter (fun p => keepTrack now p.2) ↔
      (cs, st) ∈ states ∧ now - t < 120 := by
  simp only [List.mem_filter, keepTrack, h, decide_eq_true_eq]

/-- Witness for C4: a track idle exactly 119 seconds is retained. -/
theorem C4_witness :
    wIdle.last_update = some 0 ∧
      ("AFR1", wIdle) ∈ List.filter (fun p => keepTrack 119 p.2) [("AFR1", wIdle)] :=
  ⟨rfl, (C4_expiry_exact 119 [("AFR1", wIdle)] "AFR1" wIdle 0 rfl).mpr
    ⟨by decide, by decide⟩⟩

/-- C6: both trend functions return 0 below 2 samples, and otherwise return
the mean over the last up-to-3 window minus the mean over the first up-to-3
window (the spec's windows, which overlap below 6 samples), for altitude and
ground speed respectively. -/
theorem C6_trend_formula (st : AircraftState) :
    (st.positions.length < 2 →
      st.get_altitude_trend = 0 ∧ st.get_speed_trend = 0) ∧
    (2 ≤ st.positions.length →
      st.get_altitude_trend =
        mean ((lastWindow st.positions).map Sample.alt) -
          mean ((firstWindow st.positions).map Sample.alt) ∧
      st.get_speed_trend =
        mean ((lastWindow st.positions).map Sample.gs) -
          mean ((firstWindow st.positions).map Sample.gs)) := by
  have hw : lastWindow st.positions = last3 st.positions := by
    rw [lastWindow, ← List.rtake_eq_reverse_take_reverse]; rfl
  constructor
  · intro h
    simp [AircraftState.get_altitude_trend, AircraftState.get_speed_trend, h]
  · intro h
    have h2 : ¬ st.positions.length < 2 := by omega
    simp [AircraftState.get_altitude_trend, AircraftState.get_speed_trend, h2, hw,
      firstWindow, first3]

/-- Witness for C6 at a concrete four-sample track. -/
theorem C6_witness :
    2 ≤ wTrack4.positions.length ∧
      wTrack4.get_altitude_trend =
        mean ((lastWindow wTrack4.positions).map Sample.alt) -
          mean ((firstWindow wTrack4.positions).map Sample.alt) :=
  ⟨by decide, ((C6_trend_formula wTrack4).2 (by decide)).1⟩

/-- When both trends are zero, no runway can fire either rule: the arrival
rule needs a negative altitude trend and the departure rule needs a speed
trend above 10. -/
theorem analyzeLoop_none_of_trends_zero (T : TrigModel) (st : AircraftState)
    (latest : Sample) (field_alt : ℚ)
    (halt : st.get_altitude_trend = 0) (hspd : st.get_speed_trend = 0) :
    ∀ l : List (String × Runway), analyzeLoop T st latest field_alt l = none := by
  intro l
  have h10 : ¬ ((0 : ℚ) > 10) := by norm_num
  induction l with
  | nil => rfl
  | cons hd tl ih =>
    obtain ⟨id, rwy⟩ := hd
    simp [analyzeLoop, halt, hspd, h10, ih]

/-- C7: with exactly 2 or exactly 3 samples the first-up-to-3 and
last-up-to-3 windows coincide, so both trends are exactly 0; consequently a
track with exactly 3 samples is never classified (the arrival rule needs
`alt_trend < 0`, the departure rule needs `speed_trend > 10`), for any trig
model, runway set and field elevation. -/
theorem C7_three_samples_never_classify (T : TrigModel) (st : AircraftState)
    (runway_data : List (String × Runway)) (field_alt : ℚ) :
    ((st.positions.length = 2 ∨ st.positions.length = 3) →
      st.get_altitude_trend = 0 ∧ st.get_speed_trend = 0) ∧
    (st.positions.length = 3 →
      st.analyze_runway_ops T runway_data field_alt = none) := by
  have trends : (st.positions.length = 2 ∨ st.positions.length = 3) →
      st.get_altitude_trend = 0 ∧ st.get_speed_trend = 0 := by
    intro h
    have hle : st.positions.length ≤ 3 := by omega
    have hfirst : first3 st.positions = st.positions := by
      simp [first3, List.take_of_length_le hle]
    have hlast : last3 st.positions = st.positions := by
      have : st.positions.length - 3 = 0 := by omega
      simp [last3, this]
    have h2 : ¬ st.positions.length < 2 := by omega
    constructor <;>
      simp [AircraftState.get_altitude_trend, AircraftState.get_speed_trend, h2,
        hfirst, hlast]
  refine ⟨trends, fun h3 => ?_⟩
  obtain ⟨halt, hspd⟩ := trends (Or.inr h3)
  have hnl : ¬ st.positions.length < 3 := by omega
  cases hg : st.positions.getLast? with
  | none =>
      rw [List.getLast?_eq_none_iff] at hg
      rw [hg] at h3; simp at h3
  | some latest =>
      simp [AircraftState.analyze_runway_ops, hnl, hg,
        analyzeLoop_none_of_trends_zero T st latest field_alt halt hspd]

/-- Witness for C7 at a concrete three-sample track. -/
theorem C7_witness :
    wTrack3.positions.length = 3 ∧ wTrack3.get_altitude_trend = 0 ∧
      wTrack3.analyze_runway_ops wTrig wRunways 0 = none :=
  ⟨by decide,
    ((C7_three_samples_never_classify wTrig wTrack3 wRunways 0).1 (Or.inr (by decide))).1,
    (C7_three_samples_never_classify wTrig wTrack3 wRunways 0).2 (by decide)⟩

/-- C10: a batch record with any of latitude, longitude, track, altitude or
ground speed missing is skipped without effect: the ingest step leaves the
track map unchanged, and processing a batch containing the record equals
processing the batch with the record deleted. -/
theorem C10_null_record_skipped (states : List (String × AircraftState)) (now : ℤ)
    (a : RawAircraft) (xs ys : List RawAircraft)
    (h : a.lat = none ∨ a.lon = none ∨ a.track = none ∨ a.alt = none ∨ a.gs = none) :
    ingestRecord states now a = states ∧
      (xs ++ a :: ys).foldl (fun s b => ingestRecord s now b) states =
        (xs ++ ys).foldl (fun s b => ingestRecord s now b) states := by
  have skip : ∀ s : List (String × AircraftState), ingestRecord s now a = s := by
    intro s
    obtain ⟨lat, lon, track, alt, gs, cs⟩ := a
    cases lat <;> cases lon <;> cases track <;> cases alt <;> cases gs <;>
      simp_all [ingestRecord]
  refine ⟨skip states, ?_⟩
  rw [List.foldl_append, List.foldl_append, List.foldl_cons, skip]

/-- Witness for C10: a record with a null altitude is skipped and the rest
of the batch is processed as if it were absent. -/
theorem C10_witness :
    wNullRecord.alt = none ∧
      ingestRecord [] 0 wNullRecord = [] ∧
        ([wNullRecord] ++ wNullRecord :: wBatch).foldl
            (fun s b => ingestRecord s 0 b) [] =
          ([wNullRecord] ++ wBatch).foldl (fun s b => ingestRecord s 0 b) [] :=
  ⟨rfl,
    (C10_null_record_skipped [] 0 wNullRecord [wNullRecord] wBatch
      (Or.inr (Or.inr (Or.inr (Or.inl rfl))))).1,
    (C10_null_record_skipped [] 0 wNullRecord [wNullRecord] wBatch
      (Or.inr (Or.inr (Or.inr (Or.inl rfl))))).2⟩

/-- One `update` call on the track built so far appends the sample to the
bounded buffer and stamps `last_update`. -/
theorem trackOf_append_singleton (l : List Sample) (s : Sample) :
    trackOf (l ++ [s]) =
      { positions := dequeAppend10 (trackOf l).positions s,
        last_update := some s.time } := by
  rw [trackOf, List.foldl_append]
  rfl

/-- The buffer after any sequence of updates is exactly the last up-to-10
samples, in arrival order. -/
theorem trackOf_positions (samples : List Sample) :
    (trackOf samples).positions = samples.drop (samples.length - 10) := by
  induction samples using List.reverseRecOn with
  | nil => rfl
  | append_singleton l s ih =>
    rw [trackOf_append_singleton, dequeAppend10, ih, List.length_drop]
    rcases le_or_lt l.length 9 with h | h
    · have e1 : l.length - 10 = 0 := by omega
      have e2 : l.length - (l.length - 10) + 1 - 10 = 0 := by omega
      have e3 : (l ++ [s]).length - 10 = 0 := by
        simp only [List.length_append, List.length_singleton]; omega
      simp [e1, e2, e3]
    · have e1 : l.length - (l.length - 10) + 1 - 10 = 1 := by omega
      have e2 : (l ++ [s]).length - 10 = l.length - 9 := by
        simp only [List.length_append, List.length_singleton]; omega
      have hle : l.length - 9 ≤ l.length := by omega
      have h1 : 1 ≤ (List.drop (l.length - 10) l).length := by
        rw [List.length_drop]; omega
      rw [e1, e2, List.drop_append_of_le_length hle,
        List.drop_append_of_le_length h1, List.drop_drop,
        (by omega : l.length - 10 + 1 = l.length - 9)]

/-- `last_update` always equals the newest sample's timestamp. -/
theorem trackOf_last_update (samples : List Sample) :
    (trackOf samples).last_update = samples.getLast?.map Sample.time := by
  induction samples using List.reverseRecOn with
  | nil => rfl
  | append_singleton l s ih =>
    rw [trackOf_append_singleton]
    simp

/-- C8: after any sequence of `update` calls the buffer is exactly the last
up-to-10 appended samples in arrival order (so its length is between 0 and
10, and exactly 10 past ten updates), one append past capacity evicts
exactly the oldest sample, sample times are non-decreasing whenever the
update timestamps were fed in non-decreasing order, and `last_update` is the
newest sample's timestamp. -/
theorem C8_buffer_invariants (samples : List Sample) :
    (trackOf samples).positions = samples.drop (samples.length - 10) ∧
    (trackOf samples).positions.length ≤ 10 ∧
    (10 < samples.length → (trackOf samples).positions.length = 10) ∧
    (∀ xs : List Sample, ∀ s : Sample, xs.length = 10 →
      dequeAppend10 xs s = xs.tail ++ [s]) ∧
    (List.Sorted (· ≤ ·) (samples.map Sample.time) →
      List.Sorted (· ≤ ·) ((trackOf samples).positions.map Sample.time)) ∧
    (trackOf samples).last_update = samples.getLast?.map Sample.time := by
  refine ⟨trackOf_positions samples, ?_, ?_, ?_, ?_, trackOf_last_update samples⟩
  · rw [trackOf_positions, List.length_drop]; omega
  · intro h
    rw [trackOf_positions, List.length_drop]; omega
  · intro xs s hxs
    rw [dequeAppend10, hxs]
    cases xs with
    | nil => simp at hxs
    | cons a t =>
        simp only [List.tail_cons]
        rw [(by omega : 10 + 1 - 10 = 1), List.drop_append_of_le_length
          (by simp [← hxs] : 1 ≤ (a :: t).length)]
        rfl
  · intro hs
    rw [trackOf_positions]
    exact List.Pairwise.sublist ((List.drop_sublist _ _).map _) hs

/-- Witness for C8 at a concrete eleven-sample input. -/
theorem C8_witness :
    10 < wSamples11.length ∧ (trackOf wSamples11).positions.length = 10 ∧
      List.Sorted (· ≤ ·) (wSamples11.map Sample.time) ∧
      List.Sorted (· ≤ ·) ((trackOf wSamples11).positions.map Sample.time) :=
  ⟨by decide, (C8_buffer_invariants wSamples11).2.2.1 (by decide), by decide,
    (C8_buffer_invariants wSamples11).2.2.2.2.1 (by decide)⟩

/-- The loop body of the embedded classifier, restated in the spec's
vocabulary: skip on the cross-track gate, then try the arrival rule, then
the departure rule. -/
theorem analyzeLoop_cons (T : TrigModel) (st : AircraftState) (latest : Sample)
    (field_alt : ℚ) (id : String) (rwy : Runway) (tl : List (String × Runway)) :
    analyzeLoop T st latest field_alt ((id, rwy) :: tl) =
      if specCrossTrack T latest rwy > 5/100 then
        analyzeLoop T st latest field_alt tl
      else if specArrivalProp T st latest field_alt rwy then some (true, id)
      else if specDepartureProp T st latest field_alt rwy then some (false, id)
      else analyzeLoop T st latest field_alt tl := rfl

/-- The classifier loop returns the first runway matching the spec's
combined rule, with the kind decided by the arrival rule. -/
theorem analyzeLoop_eq_find (T : TrigModel) (st : AircraftState) (latest : Sample)
    (field_alt : ℚ) (l : List (String × Runway)) :
    analyzeLoop T st latest field_alt l =
      (l.find? (specRunwayMatches T st latest field_alt)).map
        fun p => (specArrivalRule T st latest field_alt p.2, p.1) := by
  induction l with
  | nil => rfl
  | cons hd tl ih =>
    obtain ⟨id, rwy⟩ := hd
    rw [analyzeLoop_cons]
    by_cases hc : specCrossTrack T latest rwy > 5/100
    · rw [if_pos hc, List.find?_cons_of_neg, ih]
      simp [specRunwayMatches, hc]
    · rw [if_neg hc]
      by_cases ha : specArrivalProp T st latest field_alt rwy
      · rw [if_pos ha, List.find?_cons_of_pos]
        · simp [specArrivalRule, ha]
        · simp [specRunwayMatches, specArrivalRule, hc, ha]
      · rw [if_neg ha]
        by_cases hdp : specDepartureProp T st latest field_alt rwy
        · rw [if_pos hdp, List.find?_cons_of_pos]
          · simp only [Option.map_some', specArrivalRule, decide_eq_false ha]
          · simp [specRunwayMatches, specDepartureRule, hc, hdp]
        · rw [if_neg hdp, List.find?_cons_of_neg, ih]
          simp [specRunwayMatches, specArrivalRule, specDepartureRule, hc, ha, hdp]

/-- C1: on a track with at least 3 samples the embedded classifier equals
the spec's algorithm of section 4.2: iterate the runways in the given
deterministic order, compute cross-track, along-track and heading difference
from the newest sample by the flat-earth formulas, skip runways with
cross-track above 0.05 NM, and return the first runway firing the arrival
rule (as an arrival) or the departure rule (as a departure), or no operation
when no runway matches. -/
theorem C1_classifier_refines_spec (T : TrigModel) (st : AircraftState)
    (runway_data : List (String × Runway)) (field_alt : ℚ)
    (h : 3 ≤ st.positions.length) :
    st.analyze_runway_ops T runway_data field_alt =
      classifySpec T st runway_data field_alt := by
  have h3 : ¬ st.positions.length < 3 := by omega
  rw [AircraftState.analyze_runway_ops, classifySpec, if_neg h3, if_neg h3]
  cases hg : st.positions.getLast? with
  | none => rfl
  | some latest => exact analyzeLoop_eq_find T st latest field_alt runway_data

/-- Witness for C1 at a concrete four-sample track on final. -/
theorem C1_witness :
    3 ≤ wTrack4.positions.length ∧
      wTrack4.analyze_runway_ops wTrig wRunways 0 =
        classifySpec wTrig wTrack4 wRunways 0 :=
  ⟨by decide, C1_classifier_refines_spec wTrig wTrack4 wRunways 0 (by decide)⟩

/-! Association-list and set-list lemmas (Python dict/set semantics). -/

theorem alookup_dictInsert_self {α : Type} (m : List (String × α)) (k : String) (v : α) :
    alookup (dictInsert m k v) k = some v := by
  induction m with
  | nil => simp [dictInsert, alookup]
  | cons p ps ih =>
    by_cases h : p.1 = k
    · simp [dictInsert, h, alookup]
    · simp [dictInsert, h, alookup, ih]

theorem alookup_dictInsert_ne {α : Type} (m : List (String × α)) (k k' : String) (v : α)
    (h : k ≠ k') :
    alookup (dictInsert m k v) k' = alookup m k' := by
  induction m with
  | nil => simp [dictInsert, alookup, h]
  | cons p ps ih =>
    by_cases hp : p.1 = k
    · simp [dictInsert, hp, alookup, h]
    · simp [dictInsert, hp, alookup, ih]

theorem alookup_some_mem {α : Type} (m : List (String × α)) (k : String) (v : α)
    (h : alookup m k = some v) : (k, v) ∈ m := by
  induction m with
  | nil => simp [alookup] at h
  | cons p ps ih =>
    by_cases hp : p.1 = k
    · simp only [alookup, hp, if_pos] at h
      have hv : p.2 = v := by simpa using h
      have : p = (k, v) := by
        cases p
        simp_all
      rw [← this]
      exact List.mem_cons_self _ _
    · simp only [alookup, hp, if_neg, ite_false] at h
      exact List.mem_cons_of_mem _ (ih h)

theorem alookup_eq_of_mem_nodup {α : Type} (m : List (String × α)) (k : String) (v : α)
    (hn : (m.map Prod.fst).Nodup) (h : (k, v) ∈ m) :
    alookup m k = some v := by
  induction m with
  | nil => simp at h
  | cons p ps ih =>
    rcases List.mem_cons.mp h with h1 | h1
    · rw [← h1]
      simp [alookup]
    · have hk : k ∈ ps.map Prod.fst := List.mem_map.mpr ⟨(k, v), h1, rfl⟩
      have hp : p.1 ≠ k := by
        intro he
        exact (List.nodup_cons.mp (by simpa using hn)).1 (he ▸ hk)
      simp only [alookup, hp, ite_false]
      exact ih (List.nodup_cons.mp (by simpa using hn)).2 h1

theorem mem_dictInsert {α : Type} (m : List (String × α)) (k : String) (v : α)
    (q : String × α) (h : q ∈ dictInsert m k v) : q = (k, v) ∨ q ∈ m := by
  induction m with
  | nil => simpa [dictInsert] using h
  | cons p ps ih =>
    by_cases hp : p.1 = k
    · simp only [dictInsert, hp, if_pos] at h
      rcases List.mem_cons.mp h with h1 | h1
      · exact Or.inl h1
      · exact Or.inr (List.mem_cons_of_mem _ h1)
    · simp only [dictInsert, hp, ite_false] at h
      rcases List.mem_cons.mp h with h1 | h1
      · exact Or.inr (h1 ▸ List.mem_cons_self _ _)
      · rcases ih h1 with h2 | h2
        · exact Or.inl h2
        · exact Or.inr (List.mem_cons_of_mem _ h2)

theorem mem_keys_dictInsert {α : Type} (m : List (String × α)) (k : String) (v : α)
    (x : String) :
    x ∈ (dictInsert m k v).map Prod.fst ↔ x = k ∨ x ∈ m.map Prod.fst := by
  induction m with
  | nil => simp [dictInsert]
  | cons p ps ih =>
    by_cases hp : p.1 = k
    · simp [dictInsert, hp]
    · simp [dictInsert, hp, ih]
      tauto

theorem dictInsert_keys_nodup {α : Type} (m : List (String × α)) (k : String) (v : α)
    (h : (m.map Prod.fst).Nodup) : ((dictInsert m k v).map Prod.fst).Nodup := by
  induction m with
  | nil => simp [dictInsert]
  | cons p ps ih =>
    rw [List.map_cons, List.nodup_cons] at h
    by_cases hp : p.1 = k
    · simp only [dictInsert, hp, if_pos, List.map_cons]
      exact List.nodup_cons.mpr ⟨hp ▸ h.1, h.2⟩
    · simp only [dictInsert, hp, ite_false, List.map_cons]
      refine List.nodup_cons.mpr ⟨?_, ih h.2⟩
      intro hmem
      rcases (mem_keys_dictInsert ps k v p.1).mp hmem with h1 | h1
      · exact hp h1
      · exact h.1 h1

theorem mem_setAdd (s : List String) (x y : String) :
    y ∈ setAdd s x ↔ y = x ∨ y ∈ s := by
  by_cases h : x ∈ s
  · simp only [setAdd, h, if_pos]
    constructor
    · exact Or.inr
    · rintro (rfl | hy)
      · exact h
      · exact hy
  · simp [setAdd, h, List.mem_append]
    tauto

theorem setAdd_nodup (s : List String) (x : String) (h : s.Nodup) :
    (setAdd s x).Nodup := by
  by_cases hx : x ∈ s
  · simpa [setAdd, hx] using h
  · simp [setAdd, hx, List.nodup_append, h]

theorem alookup_map_snd {α β : Type} (m : List (String × α)) (g : α → β) (k : String) :
    alookup (m.map fun p => (p.1, g p.2)) k = (alookup m k).map g := by
  induction m with
  | nil => rfl
  | cons p ps ih =>
    by_cases h : p.1 = k <;> simp [alookup, h, ih]

theorem alookup_pruneHist (hist : Hist) (cutoff : ℤ) (cs : String) (t : ℤ)
    (hf : alookup hist cs = some t) (hk : cutoff < t) :
    alookup (pruneHist cutoff hist) cs = some t := by
  induction hist with
  | nil => simp [alookup] at hf
  | cons p ps ih =>
    by_cases hp : p.1 = cs
    · have hv : p.2 = t := by simpa [alookup, hp] using hf
      simp [pruneHist, List.filter_cons, hv, hk, alookup, hp]
    · simp only [alookup, hp, ite_false] at hf
      by_cases hc : cutoff < p.2
      · simpa [pruneHist, List.filter_cons, hc, alookup, hp] using ih hf
      · simpa [pruneHist, List.filter_cons, hc] using ih hf

theorem pruneHist_of_fresh (cutoff : ℤ) (hist : Hist)
    (h : ∀ q ∈ hist, cutoff < q.2) :
    pruneHist cutoff hist = hist := by
  rw [pruneHist, List.filter_eq_self]
  intro q hq
  exact decide_eq_true (h q hq)

/-! Ledger-fold lemmas. -/

/-- The engine's per-track fold is the ledger fold over the classification
list. -/
theorem fold_classify_eq (T : TrigModel) (rd : List (String × Runway)) (fa : ℚ)
    (cA cD : RwySets) (now : ℤ) (states : List (String × AircraftState))
    (acc : CycleAcc) :
    states.foldl (classifyStep T rd fa cA cD now) acc =
      (states.map fun p => (p.1, p.2.analyze_runway_ops T rd fa)).foldl
        (ledgerStep cA cD now) acc := by
  rw [List.foldl_map]
  rfl

/-- One cycle of `update_runway_usage`, componentwise, in terms of
`cycleFold`. -/
theorem update_eq_cycleFold (T : TrigModel) (rd : List (String × Runway)) (fa : ℚ)
    (m : RunwayMonitor) (batch : List RawAircraft) (now : ℤ) :
    m.update_runway_usage T batch rd fa now =
      { approach_history := (cycleFold T rd fa m batch now).histA,
        current_approaches := (cycleFold T rd fa m batch now).newA,
        departure_history := (cycleFold T rd fa m batch now).histD,
        current_departures := (cycleFold T rd fa m batch now).newD,
        aircraft_states := cycleStates m.aircraft_states batch now } := by
  rw [RunwayMonitor.update_runway_usage, cycleFold, ← fold_classify_eq]

/-- The fresh current sets a ledger fold builds depend only on the
classification list and the starting sets, not on the previous current sets
or the clock. -/
theorem foldl_sets_congr (cA cD cA' cD' : RwySets) (now now' : ℤ)
    (l : List (String × Option (Bool × String))) :
    ∀ acc acc' : CycleAcc, acc.newA = acc'.newA → acc.newD = acc'.newD →
      (l.foldl (ledgerStep cA cD now) acc).newA =
        (l.foldl (ledgerStep cA' cD' now') acc').newA ∧
      (l.foldl (ledgerStep cA cD now) acc).newD =
        (l.foldl (ledgerStep cA' cD' now') acc').newD := by
  induction l with
  | nil => exact fun acc acc' hA hD => ⟨hA, hD⟩
  | cons e tl ih =>
    intro acc acc' hA hD
    rcases e with ⟨cs, o⟩
    rcases o with _ | ⟨k, r⟩
    · exact ih _ _ hA hD
    · cases k
      · exact ih _ _ (by simp [ledgerStep, hA]) (by simp [ledgerStep, hA, hD])
      · exact ih _ _ (by simp [ledgerStep, hA, hD]) (by simp [ledgerStep, hD])

/-- Membership in the fresh current sets after a ledger fold: a callsign is
in runway `r`'s fresh arrival (departure) set exactly when some entry
classified it as an arrival (departure) on `r`, or it was there already. -/
theorem foldl_mem_new (cA cD : RwySets) (now : ℤ)
    (l : List (String × Option (Bool × String))) (cs r : String) :
    ∀ acc : CycleAcc,
      (cs ∈ (alookup (l.foldl (ledgerStep cA cD now) acc).newA r).getD [] ↔
        (cs, some (true, r)) ∈ l ∨ cs ∈ (alookup acc.newA r).getD []) ∧
      (cs ∈ (alookup (l.foldl (ledgerStep cA cD now) acc).newD r).getD [] ↔
        (cs, some (false, r)) ∈ l ∨ cs ∈ (alookup acc.newD r).getD []) := by
  induction l with
  | nil => simp
  | cons e tl ih =>
    intro acc
    rcases e with ⟨cs', o⟩
    rcases o with _ | ⟨k, r'⟩
    · constructor
      · rw [List.foldl_cons, (ih _).1]
        simp [ledgerStep]
      · rw [List.foldl_cons, (ih _).2]
        simp [ledgerStep]
    · cases k
      · constructor
        · rw [List.foldl_cons, (ih _).1]
          simp only [ledgerStep, List.mem_cons]
          simp
        · rw [List.foldl_cons, (ih _).2]
          by_cases hr : r' = r
          · subst hr
            simp only [ledgerStep, List.mem_cons]
            simp [alookup_dictInsert_self, mem_setAdd]
            tauto
          · simp only [ledgerStep, List.mem_cons]
            simp [alookup_dictInsert_ne _ r' r _ hr, hr]
            tauto
      · constructor
        · rw [List.foldl_cons, (ih _).1]
          by_cases hr : r' = r
          · subst hr
            simp only [ledgerStep, List.mem_cons]
            simp [alookup_dictInsert_self, mem_setAdd]
            tauto
          · simp only [ledgerStep, List.mem_cons]
            simp [alookup_dictInsert_ne _ r' r _ hr, hr]
            tauto
        · rw [List.foldl_cons, (ih _).2]
          simp only [ledgerStep, List.mem_cons]
          simp

/-- Every runway set built by a ledger fold is duplicate-free when the
starting sets are. -/
theorem foldl_new_nodup (cA cD : RwySets) (now : ℤ)
    (l : List (String × Option (Bool × String))) :
    ∀ acc : CycleAcc, (∀ p ∈ acc.newA, p.2.Nodup) → (∀ p ∈ acc.newD, p.2.Nodup) →
      (∀ p ∈ (l.foldl (ledgerStep cA cD now) acc).newA, p.2.Nodup) ∧
      (∀ p ∈ (l.foldl (ledgerStep cA cD now) acc).newD, p.2.Nodup) := by
  induction l with
  | nil => exact fun acc hA hD => ⟨hA, hD⟩
  | cons e tl ih =>
    intro acc hA hD
    rcases e with ⟨cs', o⟩
    have hset : ∀ c : RwySets, (∀ p ∈ c, p.2.Nodup) → ∀ r' : String,
        ∀ p ∈ dictInsert c r' (setAdd ((alookup c r').getD []) cs'), p.2.Nodup := by
      intro c hc r' p hp
      rcases mem_dictInsert _ _ _ _ hp with h1 | h1
      · have hS : ((alookup c r').getD []).Nodup := by
          cases hh : alookup c r' with
          | none => simp
          | some s => simpa using hc (r', s) (alookup_some_mem _ _ _ hh)
        rw [h1]
        exact setAdd_nodup _ _ hS
      · exact hc p h1
    rcases o with _ | ⟨k, r'⟩
    · exact ih acc hA hD
    · cases k
      · exact ih _ (by simpa [ledgerStep] using hA) (by simpa [ledgerStep] using hset _ hD r')
      · exact ih _ (by simpa [ledgerStep] using hset _ hA r') (by simpa [ledgerStep] using hD)

/-- A ledger step for a different callsign leaves the history timestamp of
`(r, cs)` unchanged, on both sides. -/
theorem ledgerStep_histAt_ne (cA cD : RwySets) (now : ℤ) (acc : CycleAcc)
    (cs r cs' : String) (o : Option (Bool × String)) (hne : cs' ≠ cs) :
    histAt (ledgerStep cA cD now acc (cs', o)).histA r cs = histAt acc.histA r cs ∧
    histAt (ledgerStep cA cD now acc (cs', o)).histD r cs = histAt acc.histD r cs := by
  have key : ∀ h : RwyHist, ∀ r' : String,
      histAt (dictInsert h r' (dictInsert ((alookup h r').getD []) cs' now)) r cs =
        histAt h r cs := by
    intro h r'
    by_cases hr : r' = r
    · subst hr
      rw [histAt, alookup_dictInsert_self]
      simp only [Option.getD_some]
      rw [alookup_dictInsert_ne _ _ _ _ hne]
      rfl
    · rw [histAt, alookup_dictInsert_ne _ _ _ _ hr]
      rfl
  rcases o with _ | ⟨k, r'⟩
  · exact ⟨rfl, rfl⟩
  · cases k
    · refine ⟨rfl, ?_⟩
      simp only [ledgerStep]
      split
      · rfl
      · exact key _ _
    · refine ⟨?_, rfl⟩
      simp only [ledgerStep]
      split
      · rfl
      · exact key _ _

/-- A ledger step for the callsign's own classification: the history
timestamp is untouched when the callsign was current last cycle, and is
stamped `now` otherwise. -/
theorem ledgerStep_histAt_self (cA cD : RwySets) (now : ℤ) (acc : CycleAcc)
    (cs r : String) :
    (histAt (ledgerStep cA cD now acc (cs, some (true, r))).histA r cs =
      if cs ∈ (alookup cA r).getD [] then histAt acc.histA r cs else some now) ∧
    (histAt (ledgerStep cA cD now acc (cs, some (false, r))).histD r cs =
      if cs ∈ (alookup cD r).getD [] then histAt acc.histD r cs else some now) := by
  constructor
  · simp only [ledgerStep]
    split
    · rfl
    · rw [histAt, alookup_dictInsert_self]
      simp only [Option.getD_some]
      rw [alookup_dictInsert_self]
  · simp only [ledgerStep]
    split
    · rfl
    · rw [histAt, alookup_dictInsert_self]
      simp only [Option.getD_some]
      rw [alookup_dictInsert_self]

/-- A ledger fold whose entries never mention `cs` leaves the history
timestamp of `(r, cs)` unchanged. -/
theorem foldl_histAt_no_cs (cA cD : RwySets) (now : ℤ)
    (l : List (String × Option (Bool × String))) (cs r : String) :
    ∀ acc : CycleAcc, cs ∉ l.map Prod.fst →
      histAt (l.foldl (ledgerStep cA cD now) acc).histA r cs = histAt acc.histA r cs ∧
      histAt (l.foldl (ledgerStep cA cD now) acc).histD r cs = histAt acc.histD r cs := by
  induction l with
  | nil => exact fun acc _ => ⟨rfl, rfl⟩
  | cons e tl ih =>
    intro acc hcs
    rcases e with ⟨cs', o⟩
    have h1 : cs' ≠ cs := by
      rintro rfl
      exact hcs (by simp)
    have h2 : cs ∉ tl.map Prod.fst := fun hm => hcs (by simp [hm])
    obtain ⟨ha, hd⟩ := ledgerStep_histAt_ne cA cD now acc cs r cs' o h1
    obtain ⟨ha2, hd2⟩ := ih _ h2
    exact ⟨ha2.trans ha, hd2.trans hd⟩

/-- When every classification in the list was already current last cycle,
the ledger fold inserts nothing into either history. -/
theorem foldl_hist_unchanged (cA cD : RwySets) (now : ℤ)
    (l : List (String × Option (Bool × String))) :
    ∀ acc : CycleAcc,
      (∀ cs r, (cs, some (true, r)) ∈ l → cs ∈ (alookup cA r).getD []) →
      (∀ cs r, (cs, some (false, r)) ∈ l → cs ∈ (alookup cD r).getD []) →
      (l.foldl (ledgerStep cA cD now) acc).histA = acc.histA ∧
      (l.foldl (ledgerStep cA cD now) acc).histD = acc.histD := by
  induction l with
  | nil => exact fun acc _ _ => ⟨rfl, rfl⟩
  | cons e tl ih =>
    intro acc hA hD
    have hA' : ∀ cs r, (cs, some (true, r)) ∈ tl → cs ∈ (alookup cA r).getD [] :=
      fun cs r hm => hA cs r (List.mem_cons_of_mem _ hm)
    have hD' : ∀ cs r, (cs, some (false, r)) ∈ tl → cs ∈ (alookup cD r).getD [] :=
      fun cs r hm => hD cs r (List.mem_cons_of_mem _ hm)
    rcases e with ⟨cs', o⟩
    rcases o with _ | ⟨k, r'⟩
    · exact ih acc hA' hD'
    · cases k
      · have hmem : cs' ∈ (alookup cD r').getD [] := hD cs' r' (by simp)
        obtain ⟨e1, e2⟩ := ih (ledgerStep cA cD now acc (cs', some (false, r'))) hA' hD'
        rw [List.foldl_cons, e1, e2]
        simp [ledgerStep, hmem]
      · have hmem : cs' ∈ (alookup cA r').getD [] := hA cs' r' (by simp)
        obtain ⟨e1, e2⟩ := ih (ledgerStep cA cD now acc (cs', some (true, r'))) hA' hD'
        rw [List.foldl_cons, e1, e2]
        simp [ledgerStep, hmem]

/-- Timestamps already in a runway's pruned or fold-extended history stay in
the 30-minute window: ledger folds preserve freshness at `now`. -/
theorem foldl_hist_fresh (cA cD : RwySets) (now : ℤ)
    (l : List (String × Option (Bool × String))) :
    ∀ acc : CycleAcc, histFresh now acc.histA → histFresh now acc.histD →
      histFresh now (l.foldl (ledgerStep cA cD now) acc).histA ∧
      histFresh now (l.foldl (ledgerStep cA cD now) acc).histD := by
  have hins : ∀ h : RwyHist, ∀ r' cs' : String, histFresh now h →
      histFresh now (dictInsert h r' (dictInsert ((alookup h r').getD []) cs' now)) := by
    intro h r' cs' hf p hp q hq
    rcases mem_dictInsert _ _ _ _ hp with h1 | h1
    · rw [h1] at hq
      rcases mem_dictInsert _ _ _ _ hq with h2 | h2
      · rw [h2]
        omega
      · cases hh : alookup h r' with
        | none => rw [hh] at h2; simp at h2
        | some s =>
            rw [hh] at h2
            exact hf (r', s) (alookup_some_mem _ _ _ hh) q (by simpa using h2)
    · exact hf p h1 q hq
  intro acc
  induction l generalizing acc with
  | nil => exact fun hA hD => ⟨hA, hD⟩
  | cons e tl ih =>
    intro hA hD
    rcases e with ⟨cs', o⟩
    rcases o with _ | ⟨k, r'⟩
    · exact ih acc hA hD
    · cases k
      · refine ih _ (by simpa [ledgerStep] using hA) ?_
        simp only [ledgerStep]
        split
        · exact hD
        · exact hins _ _ _ hD
      · refine ih _ ?_ (by simpa [ledgerStep] using hD)
        simp only [ledgerStep]
        split
        · exact hA
        · exact hins _ _ _ hA

/-- A just-pruned history is fresh at the pruning time. -/
theorem pruned_fresh (now : ℤ) (h : RwyHist) :
    histFresh now (h.map fun p => (p.1, pruneHist (now - 30 * 60) p.2)) := by
  intro p hp q hq
  obtain ⟨p0, hp0, rfl⟩ := List.mem_map.mp hp
  have hmem : q ∈ pruneHist (now - 30 * 60) p0.2 := hq
  have := List.of_mem_filter hmem
  simpa using this

/-- Pruning a fresh runway-keyed history changes nothing. -/
theorem pruneRwy_of_fresh (now : ℤ) (h : RwyHist) (hf : histFresh now h) :
    h.map (fun p => (p.1, pruneHist (now - 30 * 60) p.2)) = h := by
  induction h with
  | nil => rfl
  | cons p ps ih =>
    have h1 : pruneHist (now - 30 * 60) p.2 = p.2 :=
      pruneHist_of_fresh _ _ fun q hq => hf p (List.mem_cons_self _ _) q hq
    have h2 : ps.map (fun p => (p.1, pruneHist (now - 30 * 60) p.2)) = ps :=
      ih fun p' hp' q hq => hf p' (List.mem_cons_of_mem _ hp') q hq
    rw [List.map_cons, h1, h2, Prod.mk.eta]

/-- Re-running the ledger fold on the same classification list, starting
from the first run's output (pruned again at the same clock and compared
against the first run's fresh sets), reproduces the first run's output. -/
theorem second_fold_eq (cA cD : RwySets) (now : ℤ)
    (l : List (String × Option (Bool × String))) (hA hD : RwyHist) (F G : CycleAcc)
    (hF : F = l.foldl (ledgerStep cA cD now)
      { newA := [], newD := [],
        histA := hA.map fun p => (p.1, pruneHist (now - 30 * 60) p.2),
        histD := hD.map fun p => (p.1, pruneHist (now - 30 * 60) p.2) })
    (hG : G = l.foldl (ledgerStep F.newA F.newD now)
      { newA := [], newD := [],
        histA := F.histA.map fun p => (p.1, pruneHist (now - 30 * 60) p.2),
        histD := F.histD.map fun p => (p.1, pruneHist (now - 30 * 60) p.2) }) :
    G.newA = F.newA ∧ G.newD = F.newD ∧ G.histA = F.histA ∧ G.histD = F.histD := by
  have hfresh : histFresh now F.histA ∧ histFresh now F.histD := by
    rw [hF]
    exact foldl_hist_fresh _ _ _ _ _ (pruned_fresh now hA) (pruned_fresh now hD)
  have hpA : F.histA.map (fun p => (p.1, pruneHist (now - 30 * 60) p.2)) = F.histA :=
    pruneRwy_of_fresh now F.histA hfresh.1
  have hpD : F.histD.map (fun p => (p.1, pruneHist (now - 30 * 60) p.2)) = F.histD :=
    pruneRwy_of_fresh now F.histD hfresh.2
  have hsets := foldl_sets_congr (F.newA) (F.newD) cA cD now now l
    { newA := [], newD := [],
      histA := F.histA.map fun p => (p.1, pruneHist (now - 30 * 60) p.2),
      histD := F.histD.map fun p => (p.1, pruneHist (now - 30 * 60) p.2) }
    { newA := [], newD := [],
      histA := hA.map fun p => (p.1, pruneHist (now - 30 * 60) p.2),
      histD := hD.map fun p => (p.1, pruneHist (now - 30 * 60) p.2) }
    rfl rfl
  have hcovA : ∀ cs r, (cs, some (true, r)) ∈ l → cs ∈ (alookup F.newA r).getD [] := by
    intro cs r hm
    rw [hF]
    exact ((foldl_mem_new cA cD now l cs r _).1).mpr (Or.inl hm)
  have hcovD : ∀ cs r, (cs, some (false, r)) ∈ l → cs ∈ (alookup F.newD r).getD [] := by
    intro cs r hm
    rw [hF]
    exact ((foldl_mem_new cA cD now l cs r _).2).mpr (Or.inl hm)
  have hunch := foldl_hist_unchanged (F.newA) (F.newD) now l
    { newA := [], newD := [],
      histA := F.histA.map fun p => (p.1, pruneHist (now - 30 * 60) p.2),
      histD := F.histD.map fun p => (p.1, pruneHist (now - 30 * 60) p.2) }
    hcovA hcovD
  refine ⟨?_, ?_, ?_, ?_⟩
  · rw [hG]
    exact hsets.1.trans (congrArg CycleAcc.newA hF.symm)
  · rw [hG]
    exact hsets.2.trans (congrArg CycleAcc.newD hF.symm)
  · rw [hG]
    exact hunch.1.trans hpA
  · rw [hG]
    exact hunch.2.trans hpD

set_option maxRecDepth 8000 in
/-- C5 counterexample: re-running a full cycle with the same batch and the
same clock appends a duplicate sample to the tracked aircraft, changing its
trend windows. Here the first run brings `AFR1` to 3 samples (both trends 0,
nothing classified) and the second run brings it to 4 samples and classifies
an arrival, so the snapshots differ. -/
theorem C5_counterexample :
    ((wMonitor.update_runway_usage wTrig wBatch wRunways 0 0).update_runway_usage
        wTrig wBatch wRunways 0 0).snapshot wRunways ≠
      (wMonitor.update_runway_usage wTrig wBatch wRunways 0 0).snapshot wRunways := by
  with_unfolding_all decide

/-- C5 amended: re-running a full cycle with an unchanged batch and an
unchanged clock produces an identical output snapshot provided the duplicate
samples the second ingest appends leave every live track's classification
unchanged; without that proviso the snapshot can change. -/
theorem C5_idempotent_of_stable_classifications (T : TrigModel)
    (rd : List (String × Runway)) (fa : ℚ) (m : RunwayMonitor)
    (batch : List RawAircraft) (now : ℤ)
    (H : (cycleStates (cycleStates m.aircraft_states batch now) batch now).map
           (fun p => (p.1, p.2.analyze_runway_ops T rd fa)) =
         (cycleStates m.aircraft_states batch now).map
           (fun p => (p.1, p.2.analyze_runway_ops T rd fa))) :
    ((m.update_runway_usage T batch rd fa now).update_runway_usage T batch rd fa
        now).snapshot rd =
      (m.update_runway_usage T batch rd fa now).snapshot rd := by
  have hup := update_eq_cycleFold T rd fa m batch now
  have hup2 := update_eq_cycleFold T rd fa (m.update_runway_usage T batch rd fa now)
    batch now
  have hFdef : cycleFold T rd fa m batch now =
      ((cycleStates m.aircraft_states batch now).map
        (fun p => (p.1, p.2.analyze_runway_ops T rd fa))).foldl
        (ledgerStep m.current_approaches m.current_departures now)
        { newA := [], newD := [],
          histA := m.approach_history.map fun p => (p.1, pruneHist (now - 30 * 60) p.2),
          histD := m.departure_history.map fun p => (p.1, pruneHist (now - 30 * 60) p.2) } :=
    rfl
  have hGdef : cycleFold T rd fa (m.update_runway_usage T batch rd fa now) batch now =
      ((cycleStates (cycleStates m.aircraft_states batch now) batch now).map
        (fun p => (p.1, p.2.analyze_runway_ops T rd fa))).foldl
        (ledgerStep (cycleFold T rd fa m batch now).newA
          (cycleFold T rd fa m batch now).newD now)
        { newA := [], newD := [],
          histA := (cycleFold T rd fa m batch now).histA.map
            fun p => (p.1, pruneHist (now - 30 * 60) p.2),
          histD := (cycleFold T rd fa m batch now).histD.map
            fun p => (p.1, pruneHist (now - 30 * 60) p.2) } := by
    rw [cycleFold, hup]
  rw [H] at hGdef
  obtain ⟨e1, e2, e3, e4⟩ := second_fold_eq m.current_approaches m.current_departures now
    ((cycleStates m.aircraft_states batch now).map
      fun p => (p.1, p.2.analyze_runway_ops T rd fa))
    m.approach_history m.departure_history
    (cycleFold T rd fa m batch now)
    (cycleFold T rd fa (m.update_runway_usage T batch rd fa now) batch now)
    hFdef hGdef
  rw [hup2]
  simp only [e1, e2, e3, e4]
  rw [hup]
  simp only [RunwayMonitor.snapshot]

/-- Witness for C5 at a concrete monitor whose track's classification is
unchanged by re-ingesting the (empty) batch. -/
theorem C5_witness :
    ((cycleStates (cycleStates wMonitor.aircraft_states [] 0) [] 0).map
        (fun p => (p.1, p.2.analyze_runway_ops wTrig wRunways 0)) =
      (cycleStates wMonitor.aircraft_states [] 0).map
        (fun p => (p.1, p.2.analyze_runway_ops wTrig wRunways 0))) ∧
    ((wMonitor.update_runway_usage wTrig [] wRunways 0 0).update_runway_usage
        wTrig [] wRunways 0 0).snapshot wRunways =
      (wMonitor.update_runway_usage wTrig [] wRunways 0 0).snapshot wRunways :=
  ⟨by with_unfolding_all decide,
    C5_idempotent_of_stable_classifications wTrig wRunways 0 wMonitor [] 0
      (by with_unfolding_all decide)⟩

/-! Key-uniqueness of the aircraft-state dict through a cycle. -/

theorem ingestRecord_goodKeys (states : List (String × AircraftState)) (now : ℤ)
    (a : RawAircraft) (h : goodKeys states) : goodKeys (ingestRecord states now a) := by
  rcases a with ⟨lat, lon, track, alt, gs, cs⟩
  cases lat <;> cases lon <;> cases track <;> cases alt <;> cases gs <;>
    first
      | exact h
      | exact dictInsert_keys_nodup _ _ _ h

theorem cycleStates_goodKeys (states : List (String × AircraftState))
    (batch : List RawAircraft) (now : ℤ) (h : goodKeys states) :
    goodKeys (cycleStates states batch now) := by
  have hfold : goodKeys (batch.foldl (fun s a => ingestRecord s now a) states) := by
    induction batch generalizing states with
    | nil => exact h
    | cons a tl ih => exact ih _ (ingestRecord_goodKeys _ _ _ h)
  exact List.Nodup.sublist (List.Sublist.map Prod.fst (List.filter_sublist _)) hfold

theorem update_goodKeys (T : TrigModel) (rd : List (String × Runway)) (fa : ℚ)
    (m : RunwayMonitor) (batch : List RawAircraft) (now : ℤ)
    (h : goodKeys m.aircraft_states) :
    goodKeys ((m.update_runway_usage T batch rd fa now).aircraft_states) := by
  rw [update_eq_cycleFold]
  exact cycleStates_goodKeys _ _ _ h

/-- A history timestamp inside the 30-minute window survives pruning. -/
theorem histAt_pruned (h : RwyHist) (now : ℤ) (r cs : String) (t : ℤ)
    (hf : histAt h r cs = some t) (hw : now - t < 30 * 60) :
    histAt (h.map fun p => (p.1, pruneHist (now - 30 * 60) p.2)) r cs = some t := by
  rw [histAt, alookup_map_snd]
  rw [histAt] at hf
  cases hh : alookup h r with
  | none =>
      rw [hh] at hf
      simp [alookup] at hf
  | some hist =>
      rw [hh] at hf
      simp only [Option.map_some', Option.getD_some] at *
      exact alookup_pruneHist hist _ cs t hf (by omega)

/-- Effect of a whole ledger fold on one `(runway, callsign, kind)` triple,
with duplicate-free callsign keys: a classified callsign not current last
cycle gets stamped `now`; a classified callsign already current keeps the
starting history value; a classified callsign is in the fresh set exactly
once; an unclassified callsign is not in the fresh set. -/
theorem fold_effect (cA cD : RwySets) (now : ℤ)
    (l : List (String × Option (Bool × String))) (hA hD : RwyHist)
    (cs r : String) (k : Bool) (hlk : (l.map Prod.fst).Nodup) :
    ((cs, some (k, r)) ∈ l →
      cs ∉ (alookup (if k then cA else cD) r).getD [] →
      histAt (if k then (l.foldl (ledgerStep cA cD now)
          { newA := [], newD := [], histA := hA, histD := hD }).histA
        else (l.foldl (ledgerStep cA cD now)
          { newA := [], newD := [], histA := hA, histD := hD }).histD) r cs = some now) ∧
    ((cs, some (k, r)) ∈ l →
      cs ∈ (alookup (if k then cA else cD) r).getD [] →
      histAt (if k then (l.foldl (ledgerStep cA cD now)
          { newA := [], newD := [], histA := hA, histD := hD }).histA
        else (l.foldl (ledgerStep cA cD now)
          { newA := [], newD := [], histA := hA, histD := hD }).histD) r cs =
        histAt (if k then hA else hD) r cs) ∧
    ((cs, some (k, r)) ∈ l →
      cs ∈ (alookup (if k then (l.foldl (ledgerStep cA cD now)
          { newA := [], newD := [], histA := hA, histD := hD }).newA
        else (l.foldl (ledgerStep cA cD now)
          { newA := [], newD := [], histA := hA, histD := hD }).newD) r).getD [] ∧
      ((alookup (if k then (l.foldl (ledgerStep cA cD now)
          { newA := [], newD := [], histA := hA, histD := hD }).newA
        else (l.foldl (ledgerStep cA cD now)
          { newA := [], newD := [], histA := hA, histD := hD }).newD) r).getD []).count cs = 1) ∧
    ((cs, some (k, r)) ∉ l →
      cs ∉ (alookup (if k then (l.foldl (ledgerStep cA cD now)
          { newA := [], newD := [], histA := hA, histD := hD }).newA
        else (l.foldl (ledgerStep cA cD now)
          { newA := [], newD := [], histA := hA, histD := hD }).newD) r).getD []) := by
  have hmemiff := foldl_mem_new cA cD now l cs r
    { newA := [], newD := [], histA := hA, histD := hD }
  have hnodup := foldl_new_nodup cA cD now l
    { newA := [], newD := [], histA := hA, histD := hD }
    (by intro p hp; simp at hp) (by intro p hp; simp at hp)
  refine ⟨?_, ?_, ?_, ?_⟩
  · intro hm hcur
    obtain ⟨l1, l2, rfl⟩ := List.append_of_mem hm
    have hsplit : cs ∉ l1.map Prod.fst ∧ cs ∉ l2.map Prod.fst := by
      rw [List.map_append, List.map_cons] at hlk
      have h1 := List.Nodup.of_append_right hlk
      have h2 := (List.nodup_append.mp hlk).2.2
      constructor
      · intro hc
        exact h2 hc (List.mem_cons_self _ _)
      · exact (List.nodup_cons.mp h1).1
    rw [List.foldl_append, List.foldl_cons]
    cases k
    · have hstep := (ledgerStep_histAt_self cA cD now
        (l1.foldl (ledgerStep cA cD now)
          { newA := [], newD := [], histA := hA, histD := hD }) cs r).2
      rw [if_neg (by simpa using hcur)] at hstep
      simp only [if_neg Bool.false_ne_true]
      exact ((foldl_histAt_no_cs cA cD now l2 cs r _ hsplit.2).2).trans hstep
    · have hstep := (ledgerStep_histAt_self cA cD now
        (l1.foldl (ledgerStep cA cD now)
          { newA := [], newD := [], histA := hA, histD := hD }) cs r).1
      rw [if_neg (by simpa using hcur)] at hstep
      simp only [if_pos]
      exact ((foldl_histAt_no_cs cA cD now l2 cs r _ hsplit.2).1).trans hstep
  · intro hm hcur
    obtain ⟨l1, l2, rfl⟩ := List.append_of_mem hm
    have hsplit : cs ∉ l1.map Prod.fst ∧ cs ∉ l2.map Prod.fst := by
      rw [List.map_append, List.map_cons] at hlk
      have h1 := List.Nodup.of_append_right hlk
      have h2 := (List.nodup_append.mp hlk).2.2
      constructor
      · intro hc
        exact h2 hc (List.mem_cons_self _ _)
      · exact (List.nodup_cons.mp h1).1
    rw [List.foldl_append, List.foldl_cons]
    cases k
    · have hstep := (ledgerStep_histAt_self cA cD now
        (l1.foldl (ledgerStep cA cD now)
          { newA := [], newD := [], histA := hA, histD := hD }) cs r).2
      rw [if_pos (by simpa using hcur)] at hstep
      simp only [if_neg Bool.false_ne_true]
      refine ((foldl_histAt_no_cs cA cD now l2 cs r _ hsplit.2).2).trans (hstep.trans ?_)
      exact (foldl_histAt_no_cs cA cD now l1 cs r _ hsplit.1).2
    · have hstep := (ledgerStep_histAt_self cA cD now
        (l1.foldl (ledgerStep cA cD now)
          { newA := [], newD := [], histA := hA, histD := hD }) cs r).1
      rw [if_pos (by simpa using hcur)] at hstep
      simp only [if_pos]
      refine ((foldl_histAt_no_cs cA cD now l2 cs r _ hsplit.2).1).trans (hstep.trans ?_)
      exact (foldl_histAt_no_cs cA cD now l1 cs r _ hsplit.1).1
  · intro hm
    cases k
    · have hmem : cs ∈ (alookup (l.foldl (ledgerStep cA cD now)
          { newA := [], newD := [], histA := hA, histD := hD }).newD r).getD [] :=
        (hmemiff.2).mpr (Or.inl hm)
      refine ⟨by simpa using hmem, ?_⟩
      simp only [if_neg Bool.false_ne_true]
      cases hh : alookup (l.foldl (ledgerStep cA cD now)
          { newA := [], newD := [], histA := hA, histD := hD }).newD r with
      | none =>
          rw [hh] at hmem
          simp at hmem
      | some s =>
          rw [hh] at hmem
          simp only [Option.getD_some] at *
          exact List.count_eq_one_of_mem
            (by simpa using hnodup.2 (r, s) (alookup_some_mem _ _ _ hh)) hmem
    · have hmem : cs ∈ (alookup (l.foldl (ledgerStep cA cD now)
          { newA := [], newD := [], histA := hA, histD := hD }).newA r).getD [] :=
        (hmemiff.1).mpr (Or.inl hm)
      refine ⟨by simpa using hmem, ?_⟩
      simp only [if_pos]
      cases hh : alookup (l.foldl (ledgerStep cA cD now)
          { newA := [], newD := [], histA := hA, histD := hD }).newA r with
      | none =>
          rw [hh] at hmem
          simp at hmem
      | some s =>
          rw [hh] at hmem
          simp only [Option.getD_some] at *
          exact List.count_eq_one_of_mem
            (by simpa using hnodup.1 (r, s) (alookup_some_mem _ _ _ hh)) hmem
  · intro hm
    cases k
    · intro hmem
      rcases (hmemiff.2).mp (by simpa using hmem) with h1 | h1
      · exact hm h1
      · simp [alookup] at h1
    · intro hmem
      rcases (hmemiff.1).mp (by simpa using hmem) with h1 | h1
      · exact hm h1
      · simp [alookup] at h1

/-- The classification the cycle computes for `cs` corresponds to an entry
of the cycle's classification list (callsign keys are unique). -/
theorem detected_iff_mem (T : TrigModel) (rd : List (String × Runway)) (fa : ℚ)
    (m : RunwayMonitor) (batch : List RawAircraft) (now : ℤ) (cs r : String) (k : Bool)
    (hsk : goodKeys (cycleStates m.aircraft_states batch now)) :
    detected T rd fa m batch now cs r k ↔
      (cs, some (k, r)) ∈ (cycleStates m.aircraft_states batch now).map
        fun p => (p.1, p.2.analyze_runway_ops T rd fa) := by
  constructor
  · rintro ⟨st, h1, h2⟩
    exact List.mem_map.mpr ⟨(cs, st), alookup_some_mem _ _ _ h1, by simp [h2]⟩
  · intro hm
    obtain ⟨p, hp, he⟩ := List.mem_map.mp hm
    have hp1 : p.1 = cs := congrArg Prod.fst he
    have hp2 : p.2.analyze_runway_ops T rd fa = some (k, r) := congrArg Prod.snd he
    refine ⟨p.2, ?_, hp2⟩
    have hmem : (cs, p.2) ∈ cycleStates m.aircraft_states batch now := by
      rw [← hp1]
      simpa using hp
    exact alookup_eq_of_mem_nodup _ _ _ hsk hmem

/-- Ledger effect of one full engine cycle on one
`(runway, callsign, kind)` triple. A detected callsign not current last
cycle gets a fresh history stamp `now`; a detected callsign already current
keeps its in-window timestamp; a detected callsign ends up in the current
set with multiplicity one; an undetected callsign is absent from the current
set after the cycle. -/
theorem cycle_ledger_effect (T : TrigModel) (rd : List (String × Runway)) (fa : ℚ)
    (m : RunwayMonitor) (batch : List RawAircraft) (now : ℤ) (cs r : String) (k : Bool)
    (hk : goodKeys m.aircraft_states) :
    (detected T rd fa m batch now cs r k →
      (¬ inCurrent (currSel k m) r cs →
        histAt (histSel k (m.update_runway_usage T batch rd fa now)) r cs = some now) ∧
      (∀ t : ℤ, inCurrent (currSel k m) r cs →
        histAt (histSel k m) r cs = some t → now - t < 30 * 60 →
        histAt (histSel k (m.update_runway_usage T batch rd fa now)) r cs = some t) ∧
      inCurrent (currSel k (m.update_runway_usage T batch rd fa now)) r cs ∧
      currCount (currSel k (m.update_runway_usage T batch rd fa now)) r cs = 1) ∧
    (¬ detected T rd fa m batch now cs r k →
      ¬ inCurrent (currSel k (m.update_runway_usage T batch rd fa now)) r cs) := by
  have hup := update_eq_cycleFold T rd fa m batch now
  have hsk : goodKeys (cycleStates m.aircraft_states batch now) :=
    cycleStates_goodKeys _ _ _ hk
  have hlk : (((cycleStates m.aircraft_states batch now).map
      (fun p => (p.1, p.2.analyze_runway_ops T rd fa))).map Prod.fst).Nodup := by
    rw [List.map_map]
    exact hsk
  have hfe := fold_effect m.current_approaches m.current_departures now
    ((cycleStates m.aircraft_states batch now).map
      fun p => (p.1, p.2.analyze_runway_ops T rd fa))
    (m.approach_history.map fun p => (p.1, pruneHist (now - 30 * 60) p.2))
    (m.departure_history.map fun p => (p.1, pruneHist (now - 30 * 60) p.2))
    cs r k hlk
  have hdm := detected_iff_mem T rd fa m batch now cs r k hsk
  cases k
  · simp only [histSel, currSel, Bool.false_eq_true, if_neg, ite_false] at *
    rw [hup]
    constructor
    · intro hdet
      have hm := hdm.mp hdet
      refine ⟨?_, ?_, ?_, ?_⟩
      · intro hcur
        exact hfe.1 hm hcur
      · intro t hcur hft hw
        exact (hfe.2.1 hm hcur).trans
          (histAt_pruned m.departure_history now r cs t hft hw)
      · exact (hfe.2.2.1 hm).1
      · exact (hfe.2.2.1 hm).2
    · intro hnd
      exact hfe.2.2.2 fun hm => hnd (hdm.mpr hm)
  · simp only [histSel, currSel, if_pos, ite_true] at *
    rw [hup]
    constructor
    · intro hdet
      have hm := hdm.mp hdet
      refine ⟨?_, ?_, ?_, ?_⟩
      · intro hcur
        exact hfe.1 hm hcur
      · intro t hcur hft hw
        exact (hfe.2.1 hm hcur).trans
          (histAt_pruned m.approach_history now r cs t hft hw)
      · exact (hfe.2.2.1 hm).1
      · exact (hfe.2.2.1 hm).2
    · intro hnd
      exact hfe.2.2.2 fun hm => hnd (hdm.mpr hm)

theorem runCycles_goodKeys (T : TrigModel) (rd : List (String × Runway)) (fa : ℚ)
    (inputs : List (List RawAircraft × ℤ)) :
    ∀ m : RunwayMonitor, goodKeys m.aircraft_states →
      goodKeys (runCycles T rd fa m inputs).aircraft_states := by
  induction inputs with
  | nil => exact fun m h => h
  | cons p tl ih =>
    intro m h
    obtain ⟨b, t⟩ := p
    simp only [runCycles]
    exact ih _ (update_goodKeys T rd fa m b t h)

/-- Sustained detection across cycles within the 30-minute window preserves
the original streak stamp, current membership and multiplicity one. -/
theorem streak_keeps_entry (T : TrigModel) (rd : List (String × Runway)) (fa : ℚ)
    (cs r : String) (k : Bool) (rest : List (List RawAircraft × ℤ)) :
    ∀ (m : RunwayMonitor) (t1 : ℤ),
      goodKeys m.aircraft_states →
      histAt (histSel k m) r cs = some t1 →
      inCurrent (currSel k m) r cs →
      currCount (currSel k m) r cs = 1 →
      streakFrom T rd fa cs r k m rest →
      (∀ p ∈ rest, p.2 - t1 < 30 * 60) →
      histAt (histSel k (runCycles T rd fa m rest)) r cs = some t1 ∧
        inCurrent (currSel k (runCycles T rd fa m rest)) r cs ∧
        currCount (currSel k (runCycles T rd fa m rest)) r cs = 1 := by
  induction rest with
  | nil =>
    intro m t1 _ h1 h2 h3 _ _
    exact ⟨h1, h2, h3⟩
  | cons p tl ih =>
    intro m t1 hk h1 h2 h3 hstreak hwin
    obtain ⟨b, t⟩ := p
    obtain ⟨hdet, hrest⟩ := hstreak
    have hd := (cycle_ledger_effect T rd fa m b t cs r k hk).1 hdet
    have hstep1 : histAt (histSel k (m.update_runway_usage T b rd fa t)) r cs = some t1 :=
      hd.2.1 t1 h2 h1 (by
        have := hwin (b, t) (List.mem_cons_self _ _)
        omega)
    simp only [runCycles]
    exact ih (m.update_runway_usage T b rd fa t) t1
      (update_goodKeys T rd fa m b t hk) hstep1 hd.2.2.1 hd.2.2.2 hrest
      fun q hq => hwin q (List.mem_cons_of_mem _ hq)

/-- C2: if a callsign is classified for the same runway and kind at the
first cycle while not current, then in every following cycle of the streak
(all within 30 minutes of the first detection), exactly one history entry
exists for it — stamped with the first cycle's time, never refreshed — and
it stays in the corresponding current set with multiplicity 1; after one
cycle with no such classification it leaves the current set, and a renewed
detection inserts `(callsign, now)` again, overwriting the old stamp and
restarting the streak clock within the 30-minute window. -/
theorem C2_streak_and_restart (T : TrigModel) (rd : List (String × Runway)) (fa : ℚ)
    (m0 : RunwayMonitor) (cs r : String) (k : Bool)
    (b1 : List RawAircraft) (t1 : ℤ) (rest : List (List RawAircraft × ℤ))
    (bg b2 : List RawAircraft) (tg t2 : ℤ)
    (hk : goodKeys m0.aircraft_states)
    (hstart : ¬ inCurrent (currSel k m0) r cs)
    (hdet1 : detected T rd fa m0 b1 t1 cs r k)
    (hstreak : streakFrom T rd fa cs r k (m0.update_runway_usage T b1 rd fa t1) rest)
    (hwin : ∀ p ∈ rest, p.2 - t1 < 30 * 60)
    (hgap : ¬ detected T rd fa
      (runCycles T rd fa (m0.update_runway_usage T b1 rd fa t1) rest) bg tg cs r k)
    (hdet2 : detected T rd fa
      ((runCycles T rd fa (m0.update_runway_usage T b1 rd fa t1) rest).update_runway_usage
        T bg rd fa tg) b2 t2 cs r k) :
    (histAt (histSel k (runCycles T rd fa (m0.update_runway_usage T b1 rd fa t1) rest))
        r cs = some t1 ∧
      inCurrent (currSel k (runCycles T rd fa (m0.update_runway_usage T b1 rd fa t1) rest))
        r cs ∧
      currCount (currSel k (runCycles T rd fa (m0.update_runway_usage T b1 rd fa t1) rest))
        r cs = 1) ∧
    ¬ inCurrent (currSel k ((runCycles T rd fa (m0.update_runway_usage T b1 rd fa t1)
        rest).update_runway_usage T bg rd fa tg)) r cs ∧
    histAt (histSel k (((runCycles T rd fa (m0.update_runway_usage T b1 rd fa t1)
        rest).update_runway_usage T bg rd fa tg).update_runway_usage T b2 rd fa t2))
      r cs = some t2 ∧
    inCurrent (currSel k (((runCycles T rd fa (m0.update_runway_usage T b1 rd fa t1)
        rest).update_runway_usage T bg rd fa tg).update_runway_usage T b2 rd fa t2)) r cs := by
  have hd1 := (cycle_ledger_effect T rd fa m0 b1 t1 cs r k hk).1 hdet1
  have hgood1 : goodKeys (m0.update_runway_usage T b1 rd fa t1).aircraft_states :=
    update_goodKeys T rd fa m0 b1 t1 hk
  have hS := streak_keeps_entry T rd fa cs r k rest (m0.update_runway_usage T b1 rd fa t1)
    t1 hgood1 (hd1.1 hstart) hd1.2.2.1 hd1.2.2.2 hstreak hwin
  have hgoodS : goodKeys
      (runCycles T rd fa (m0.update_runway_usage T b1 rd fa t1) rest).aircraft_states :=
    runCycles_goodKeys T rd fa rest _ hgood1
  have hgapc := (cycle_ledger_effect T rd fa
    (runCycles T rd fa (m0.update_runway_usage T b1 rd fa t1) rest) bg tg cs r k hgoodS).2
    hgap
  have hgood2 : goodKeys ((runCycles T rd fa (m0.update_runway_usage T b1 rd fa t1)
      rest).update_runway_usage T bg rd fa tg).aircraft_states :=
    update_goodKeys T rd fa _ bg tg hgoodS
  have hd2 := (cycle_ledger_effect T rd fa
    ((runCycles T rd fa (m0.update_runway_usage T b1 rd fa t1) rest).update_runway_usage
      T bg rd fa tg) b2 t2 cs r k hgood2).1 hdet2
  exact ⟨hS, hgapc, hd2.1 hgapc, hd2.2.2.1⟩

set_option maxRecDepth 40000 in
/-- Witness for C2: `AFR1` is classified as an arrival on runway 09 for two
consecutive cycles (times 0 and 10), misses a cycle at time 20, and is
detected again at time 30. -/
theorem C2_witness :
    (¬ inCurrent (currSel true wC2m0) "09" "AFR1") ∧
    (∀ p ∈ [([wRec 1800 0], (10 : ℤ))], p.2 - 0 < 30 * 60) ∧
    (histAt (histSel true wmS) "09" "AFR1" = some 0 ∧
      inCurrent (currSel true wmS) "09" "AFR1" ∧
      currCount (currSel true wmS) "09" "AFR1" = 1) ∧
    ¬ inCurrent (currSel true wmG) "09" "AFR1" ∧
    histAt (histSel true wm2) "09" "AFR1" = some 30 ∧
    inCurrent (currSel true wm2) "09" "AFR1" := by
  have hk : goodKeys wC2m0.aircraft_states := by
    show (wC2m0.aircraft_states.map Prod.fst).Nodup
    decide
  have hstart : ¬ inCurrent (currSel true wC2m0) "09" "AFR1" := by
    show ¬ "AFR1" ∈ (alookup (currSel true wC2m0) "09").getD []
    with_unfolding_all decide
  have hdet1 : detected wTrig wRunways 0 wC2m0 [wRec 1900 0] 0 "AFR1" "09" true :=
    ⟨wSt1, by with_unfolding_all decide, by with_unfolding_all decide⟩
  have hstreak : streakFrom wTrig wRunways 0 "AFR1" "09" true wm1 [([wRec 1800 0], 10)] :=
    ⟨⟨wStR, by with_unfolding_all decide, by with_unfolding_all decide⟩, trivial⟩
  have hwin : ∀ p ∈ [([wRec 1800 0], (10 : ℤ))], p.2 - 0 < 30 * 60 := by
    intro p hp
    rw [List.mem_singleton] at hp
    rw [hp]
    decide
  have hgap : ¬ detected wTrig wRunways 0 wmS [wRec 1700 90] 20 "AFR1" "09" true := by
    rintro ⟨st, h1, h2⟩
    have he : alookup (cycleStates wmS.aircraft_states [wRec 1700 90] 20) "AFR1" =
        some wStG := by with_unfolding_all decide
    rw [he] at h1
    injection h1 with h3
    rw [← h3] at h2
    exact absurd h2 (by with_unfolding_all decide)
  have hdet2 : detected wTrig wRunways 0 wmG [wRec 1600 0] 30 "AFR1" "09" true :=
    ⟨wSt2, by with_unfolding_all decide, by with_unfolding_all decide⟩
  have hmain := C2_streak_and_restart wTrig wRunways 0 wC2m0 "AFR1" "09" true
    [wRec 1900 0] 0 [([wRec 1800 0], 10)] [wRec 1700 90] [wRec 1600 0] 20 30
    hk hstart hdet1 hstreak hwin hgap hdet2
  exact ⟨hstart, hwin, hmain.1, hmain.2.1, hmain.2.2.1, hmain.2.2.2⟩

end RealTraffic
